import Mathlib

/-!
Verification of the numpy neural-network engine (`src/numpy_nn/modules/np_nn.py`)
against its natural-language specification.

Shallow embedding conventions:
* Machine floats are modelled by exact rationals `ℚ`; elementwise numpy
  arithmetic becomes `ℚ` arithmetic.  Numeric primitives that are not rational
  (`np.sqrt`, `np.exp`) are passed in as explicit function parameters, so every
  statement is universally quantified over the primitive.
* A 4-D numpy array is an index function `ℕ → ℕ → ℕ → ℕ → ℚ` together with
  explicitly tracked dimensions; a 2-D array is a `NpMat` structure carrying
  its shape.  Loop nests that accumulate with `+=` are embedded as finite sums
  (addition is commutative and associative, so the order of accumulation is
  irrelevant) or, where the accumulation order matters to the claim, as folds.
* Fallible Python behaviour (AttributeError on a missing attribute,
  ValueError from numpy shape checks, TypeError from an ill-typed operation)
  is embedded with `Except PyError`.
-/

namespace NumpyNN

/-- A 4-D tensor as an index function (batch, channel, row, column). -/
abbrev T4 : Type := ℕ → ℕ → ℕ → ℕ → ℚ

/-! ### Generic index-arithmetic helpers for row-major flattening -/

/-- A sum over a flattened (row-major) index range splits into a double sum. -/
lemma sum_range_mul_split (f : ℕ → ℚ) (A B : ℕ) :
    ∑ k ∈ Finset.range (A * B), f k =
      ∑ a ∈ Finset.range A, ∑ b ∈ Finset.range B, f (a * B + b) := by
  induction A with
  | zero => simp
  | succ n ih =>
    rw [Nat.succ_mul, Finset.sum_range_add, ih, Finset.sum_range_succ]

lemma encode_div (a b n : ℕ) (h : b < n) : (a * n + b) / n = a := by
  rw [Nat.mul_comm a n, Nat.mul_add_div (by omega)]
  simp [Nat.div_eq_of_lt h]

lemma encode_mod (a b n : ℕ) (h : b < n) : (a * n + b) % n = b :=
  Nat.mul_add_mod_of_lt h

lemma encode_lt (a b A B : ℕ) (ha : a < A) (hb : b < B) : a * B + b < A * B := by
  calc a * B + b < a * B + B := by omega
  _ = (a + 1) * B := by ring
  _ ≤ A * B := Nat.mul_le_mul_right B (by omega)

lemma ite_sum_push (c : Prop) [Decidable c] (s : Finset ℕ) (f : ℕ → ℚ) :
    (if c then ∑ x ∈ s, f x else 0) = ∑ x ∈ s, (if c then f x else 0) := by
  split <;> simp

/-! ### Convolution layers: `Conv2dWithLoops` and `Conv2d`

Both classes share `_get_padded_input` and the output-size formula
`(padded - kernel) // stride + 1`. -/

/-- Embeds `_get_padded_input`: a zero halo of width `p` around the
`H × W` spatial extent of the input. -/
def getPaddedInput (p H W : ℕ) (x : T4) : T4 :=
  fun b c y z =>
    if p ≤ y ∧ y < p + H ∧ p ≤ z ∧ z < p + W then x b c (y - p) (z - p) else 0

/-- Output spatial size `(size + 2*padding - kernel_size) // stride + 1`,
as computed in the forward methods of both convolution variants. -/
def outDim (size K s p : ℕ) : ℕ := (size + 2 * p - K) / s + 1

/-- Embeds `Conv2dWithLoops.forward`: each output cell is
`np.sum(weights[oc] * padded_window, axis=(1,2,3))` plus the optional bias. -/
def convLoopsForward (CIN K s p H W : ℕ) (weights : T4) (bias : Option (ℕ → ℚ))
    (x : T4) : T4 :=
  fun b oc h w =>
    (∑ ic ∈ Finset.range CIN, ∑ i ∈ Finset.range K, ∑ j ∈ Finset.range K,
      weights oc ic i j * getPaddedInput p H W x b ic (h * s + i) (w * s + j))
    + (match bias with | some bv => bv oc | none => 0)

/-- Embeds the `input_gradient` accumulation of `Conv2dWithLoops.backward`
before the final crop: iteration (oc, h, w) adds
`weights[oc] * output_gradient[b, oc, h, w]` into the window starting at
`(h*stride, w*stride)` of the zero-initialized padded gradient. -/
def convLoopsInputGradientPadded (OC K s oh ow : ℕ) (weights : T4) (og : T4) : T4 :=
  fun b ic y z =>
    ∑ oc ∈ Finset.range OC, ∑ h ∈ Finset.range oh, ∑ w ∈ Finset.range ow,
      if h * s ≤ y ∧ y < h * s + K ∧ w * s ≤ z ∧ z < w * s + K then
        weights oc ic (y - h * s) (z - w * s) * og b oc h w
      else 0

/-- Embeds the value returned by `Conv2dWithLoops.backward`: the padded
input gradient cropped back to the original spatial extent. -/
def convLoopsInputGradient (OC K s p oh ow : ℕ) (weights : T4) (og : T4) : T4 :=
  fun b ic y z => convLoopsInputGradientPadded OC K s oh ow weights og b ic (y + p) (z + p)

/-- Embeds the `weights_gradient` accumulation of `Conv2dWithLoops.backward`:
iteration (b, h, w) adds `padded_input[b,:,window] * output_gradient[b,oc,h,w]`
into filter `oc`'s gradient. -/
def convLoopsWeightsGradient (B s p H W oh ow : ℕ) (x og : T4) : T4 :=
  fun oc ic i j =>
    ∑ b ∈ Finset.range B, ∑ h ∈ Finset.range oh, ∑ w ∈ Finset.range ow,
      getPaddedInput p H W x b ic (h * s + i) (w * s + j) * og b oc h w

/-- Embeds the `bias_gradient` accumulation of `Conv2dWithLoops.backward`. -/
def convLoopsBiasGradient (B oh ow : ℕ) (og : T4) : ℕ → ℚ :=
  fun oc => ∑ b ∈ Finset.range B, ∑ h ∈ Finset.range oh, ∑ w ∈ Finset.range ow, og b oc h w

/-- Embeds `Conv2d._convert_weights`: row `oc` of the 2-D weight matrix is the
C-order flattening of filter `oc`, so flat index `k` decodes as
`(k / K², (k mod K²) / K, k mod K)`. -/
def convertWeights (K : ℕ) (weights : T4) : ℕ → ℕ → ℚ :=
  fun oc k => weights oc (k / (K * K)) (k % (K * K) / K) (k % K)

/-- Embeds `Conv2d._convert_input` (im2col): column `b*(oh*ow) + r*ow + c`
is the C-order flattening of the receptive field of batch element `b` at
output position `(r, c)` of the padded input. -/
def convertInput (K s oh ow : ℕ) (pin : T4) : ℕ → ℕ → ℚ :=
  fun k col =>
    pin (col / (oh * ow)) (k / (K * K))
      (col % (oh * ow) / ow * s + k % (K * K) / K)
      (col % (oh * ow) % ow * s + k % K)

/-- Embeds `Conv2d.forward`: `converted_weights @ converted_input` (+ bias
broadcast over columns), reshaped to `(OC, B, oh, ow)` and transposed to
batch-major order, so entry `(b, oc, h, w)` reads column `b*(oh*ow)+h*ow+w`. -/
def convMatForward (CIN K s p H W : ℕ) (weights : T4) (bias : Option (ℕ → ℚ))
    (x : T4) : T4 :=
  fun b oc h w =>
    (∑ k ∈ Finset.range (CIN * (K * K)),
      convertWeights K weights oc k *
        convertInput K s (outDim H K s p) (outDim W K s p) (getPaddedInput p H W x) k
          (b * (outDim H K s p * outDim W K s p) + (h * outDim W K s p + w)))
    + (match bias with | some bv => bv oc | none => 0)

/-- Embeds `output_gradient.transpose(1, 0, 2, 3).reshape(out_channels, -1)`
in `Conv2d.backward_as_matrix_multiplication`. -/
def convertOutputGradient (oh ow : ℕ) (og : T4) : ℕ → ℕ → ℚ :=
  fun oc col => og (col / (oh * ow)) oc (col % (oh * ow) / ow) (col % (oh * ow) % ow)

/-- Embeds `self.weights_gradient = (og_converted @ converted_input.T).reshape(weights.shape)`
in `Conv2d.backward_as_matrix_multiplication`. -/
def convMatWeightsGradient (B K s p H W oh ow : ℕ) (x og : T4) : T4 :=
  fun oc ic i j =>
    ∑ col ∈ Finset.range (B * (oh * ow)),
      convertOutputGradient oh ow og oc col *
        convertInput K s oh ow (getPaddedInput p H W x) (ic * (K * K) + (i * K + j)) col

/-- Embeds `self.bias_gradient = og_converted.sum(axis=1).reshape(bias.shape)`. -/
def convMatBiasGradient (B oh ow : ℕ) (og : T4) : ℕ → ℚ :=
  fun oc => ∑ col ∈ Finset.range (B * (oh * ow)), convertOutputGradient oh ow og oc col

/-- Embeds `input_gradient = converted_weights.T @ og_converted` (the input
gradient still in unfolded column form). -/
def convMatInputGradientConverted (OC K oh ow : ℕ) (weights : T4) (og : T4) :
    ℕ → ℕ → ℚ :=
  fun k col =>
    ∑ oc ∈ Finset.range OC, convertWeights K weights oc k * convertOutputGradient oh ow og oc col

/-- Embeds `Conv2d._restore_input_gradient`: iteration (b, r, c) scatter-adds
column `b*(oh*ow) + r*ow + c`, reshaped to `(CIN, K, K)` in C order, into the
receptive-field window at `(r*stride, c*stride)` of the padded gradient. -/
def restoreInputGradient (K s oh ow : ℕ) (ci : ℕ → ℕ → ℚ) : T4 :=
  fun b ic y z =>
    ∑ r ∈ Finset.range oh, ∑ c ∈ Finset.range ow,
      if r * s ≤ y ∧ y < r * s + K ∧ c * s ≤ z ∧ z < c * s + K then
        ci (ic * (K * K) + ((y - r * s) * K + (z - c * s))) (b * (oh * ow) + (r * ow + c))
      else 0

/-- Embeds the input gradient returned by
`Conv2d.backward_as_matrix_multiplication`: the restored padded gradient
cropped back to the original spatial extent. -/
def convMatInputGradient (OC K s p oh ow : ℕ) (weights : T4) (og : T4) : T4 :=
  fun b ic y z =>
    restoreInputGradient K s oh ow (convMatInputGradientConverted OC K oh ow weights og)
      b ic (y + p) (z + p)

/-! Decoding lemmas for the row-major encodings used by `Conv2d`. -/

lemma convertOutputGradient_encode (oh ow : ℕ) (og : T4) (oc b h w : ℕ)
    (hh : h < oh) (hw : w < ow) :
    convertOutputGradient oh ow og oc (b * (oh * ow) + (h * ow + w)) = og b oc h w := by
  have hlt : h * ow + w < oh * ow := encode_lt h w oh ow hh hw
  unfold convertOutputGradient
  rw [encode_div _ _ _ hlt, encode_mod _ _ _ hlt, encode_div _ _ _ hw, encode_mod _ _ _ hw]

lemma encode_mod_sq (ic i j K : ℕ) (hj : j < K) :
    (ic * (K * K) + (i * K + j)) % K = j := by
  have h : ic * (K * K) + (i * K + j) = (ic * K + i) * K + j := by ring
  rw [h]
  exact encode_mod _ _ _ hj

lemma convertWeights_encode (K : ℕ) (weights : T4) (oc ic i j : ℕ)
    (hi : i < K) (hj : j < K) :
    convertWeights K weights oc (ic * (K * K) + (i * K + j)) = weights oc ic i j := by
  have hlt : i * K + j < K * K := encode_lt i j K K hi hj
  unfold convertWeights
  rw [encode_mod_sq ic i j K hj, encode_div _ _ _ hlt, encode_mod _ _ _ hlt,
    encode_div _ _ _ hj]

lemma convertInput_encode (K s oh ow : ℕ) (pin : T4) (b h w ic i j : ℕ)
    (hh : h < oh) (hw : w < ow) (hi : i < K) (hj : j < K) :
    convertInput K s oh ow pin (ic * (K * K) + (i * K + j)) (b * (oh * ow) + (h * ow + w)) =
      pin b ic (h * s + i) (w * s + j) := by
  have hcol : h * ow + w < oh * ow := encode_lt h w oh ow hh hw
  have hk : i * K + j < K * K := encode_lt i j K K hi hj
  unfold convertInput
  rw [encode_mod_sq ic i j K hj, encode_div _ _ _ hcol, encode_mod _ _ _ hcol,
    encode_div _ _ _ hk, encode_mod _ _ _ hk,
    encode_div _ _ _ hw, encode_mod _ _ _ hw, encode_div _ _ _ hj]

/-! Equivalence of the two convolution variants, entry by entry. -/

lemma conv_forward_eq (CIN K s p H W : ℕ) (weights : T4) (bias : Option (ℕ → ℚ))
    (x : T4) (b oc h w : ℕ) (hh : h < outDim H K s p) (hw : w < outDim W K s p) :
    convLoopsForward CIN K s p H W weights bias x b oc h w =
      convMatForward CIN K s p H W weights bias x b oc h w := by
  unfold convLoopsForward convMatForward
  congr 1
  rw [sum_range_mul_split]
  refine Finset.sum_congr rfl (fun ic _ => ?_)
  rw [sum_range_mul_split]
  refine Finset.sum_congr rfl (fun i hi => Finset.sum_congr rfl (fun j hj => ?_))
  rw [Finset.mem_range] at hi hj
  rw [convertWeights_encode K weights oc ic i j hi hj,
    convertInput_encode K s _ _ _ b h w ic i j hh hw hi hj]

lemma conv_weights_gradient_eq (B K s p H W oh ow : ℕ) (x og : T4)
    (oc ic i j : ℕ) (hi : i < K) (hj : j < K) :
    convLoopsWeightsGradient B s p H W oh ow x og oc ic i j =
      convMatWeightsGradient B K s p H W oh ow x og oc ic i j := by
  unfold convLoopsWeightsGradient convMatWeightsGradient
  rw [sum_range_mul_split]
  refine Finset.sum_congr rfl (fun b _ => ?_)
  rw [sum_range_mul_split]
  refine Finset.sum_congr rfl (fun h hh => Finset.sum_congr rfl (fun w hw => ?_))
  rw [Finset.mem_range] at hh hw
  rw [convertOutputGradient_encode oh ow og oc b h w hh hw,
    convertInput_encode K s oh ow _ b h w ic i j hh hw hi hj, mul_comm]

lemma conv_bias_gradient_eq (B oh ow : ℕ) (og : T4) (oc : ℕ) :
    convLoopsBiasGradient B oh ow og oc = convMatBiasGradient B oh ow og oc := by
  unfold convLoopsBiasGradient convMatBiasGradient
  rw [sum_range_mul_split]
  refine Finset.sum_congr rfl (fun b _ => ?_)
  rw [sum_range_mul_split]
  refine Finset.sum_congr rfl (fun h hh => Finset.sum_congr rfl (fun w hw => ?_))
  rw [Finset.mem_range] at hh hw
  rw [convertOutputGradient_encode oh ow og oc b h w hh hw]

lemma conv_input_gradient_padded_eq (OC K s oh ow : ℕ) (weights : T4) (og : T4)
    (b ic y z : ℕ) :
    convLoopsInputGradientPadded OC K s oh ow weights og b ic y z =
      restoreInputGradient K s oh ow (convMatInputGradientConverted OC K oh ow weights og)
        b ic y z := by
  unfold convLoopsInputGradientPadded restoreInputGradient
  have step1 : ∀ r ∈ Finset.range oh, ∀ c ∈ Finset.range ow,
      (if r * s ≤ y ∧ y < r * s + K ∧ c * s ≤ z ∧ z < c * s + K then
        convMatInputGradientConverted OC K oh ow weights og
          (ic * (K * K) + ((y - r * s) * K + (z - c * s))) (b * (oh * ow) + (r * ow + c))
      else 0) =
      ∑ oc ∈ Finset.range OC,
        (if r * s ≤ y ∧ y < r * s + K ∧ c * s ≤ z ∧ z < c * s + K then
          weights oc ic (y - r * s) (z - c * s) * og b oc r c else 0) := by
    intro r hr c hc
    rw [Finset.mem_range] at hr hc
    by_cases hcond : r * s ≤ y ∧ y < r * s + K ∧ c * s ≤ z ∧ z < c * s + K
    · rw [if_pos hcond]
      unfold convMatInputGradientConverted
      refine Finset.sum_congr rfl (fun oc _ => ?_)
      rw [if_pos hcond]
      rw [convertWeights_encode K weights oc ic _ _ (by omega) (by omega),
        convertOutputGradient_encode oh ow og oc b r c hr hc]
    · rw [if_neg hcond]
      simp [hcond]
  rw [Finset.sum_congr rfl (fun r hr => Finset.sum_congr rfl (fun c hc => step1 r hr c hc))]
  rw [Finset.sum_comm]
  refine Finset.sum_congr rfl (fun oc _ => ?_)
  rw [Finset.sum_comm]

/-- C1: given identical in/out channel counts, kernel size, stride, padding,
weights, bias and input, the direct sliding-window convolution
(`Conv2dWithLoops`) and the matrix-multiplication convolution (`Conv2d`)
produce (1) equal forward outputs at every valid output position, and — after
backward on the same output gradient — (2) equal weight gradients, (3) equal
bias gradients, and (4) equal input gradients everywhere.  Stride and padding
are universally quantified, so the statement covers both stride=1/padding=0
and stride>1/padding>0. -/
theorem conv_variants_equivalent (OC CIN K s p B H W oh ow : ℕ) (weights : T4)
    (bias : Option (ℕ → ℚ)) (x og : T4) :
    (∀ b oc h w, h < outDim H K s p → w < outDim W K s p →
      convLoopsForward CIN K s p H W weights bias x b oc h w =
        convMatForward CIN K s p H W weights bias x b oc h w) ∧
    (∀ oc ic i j, i < K → j < K →
      convLoopsWeightsGradient B s p H W oh ow x og oc ic i j =
        convMatWeightsGradient B K s p H W oh ow x og oc ic i j) ∧
    (∀ oc, convLoopsBiasGradient B oh ow og oc = convMatBiasGradient B oh ow og oc) ∧
    (∀ b ic y z,
      convLoopsInputGradient OC K s p oh ow weights og b ic y z =
        convMatInputGradient OC K s p oh ow weights og b ic y z) :=
  ⟨fun b oc h w hh hw => conv_forward_eq CIN K s p H W weights bias x b oc h w hh hw,
   fun oc ic i j hi hj => conv_weights_gradient_eq B K s p H W oh ow x og oc ic i j hi hj,
   fun oc => conv_bias_gradient_eq B oh ow og oc,
   fun b ic y z => conv_input_gradient_padded_eq OC K s oh ow weights og b ic (y + p) (z + p)⟩

/-- Witness for C1: the equivalence applied at a concrete configuration with
stride 2 and padding 1 (kernel 2, one 2×2 input plane of ones). -/
theorem conv_variants_equivalent_witness :
    convLoopsForward 1 2 2 1 2 2 (fun _ _ _ _ => 1) (some fun _ => 1)
        (fun _ _ _ _ => 1) 0 0 1 1 =
      convMatForward 1 2 2 1 2 2 (fun _ _ _ _ => 1) (some fun _ => 1)
        (fun _ _ _ _ => 1) 0 0 1 1 ∧
    convLoopsWeightsGradient 1 2 1 2 2 2 2 (fun _ _ _ _ => 1) (fun _ _ _ _ => 1) 0 0 1 1 =
      convMatWeightsGradient 1 2 2 1 2 2 2 2 (fun _ _ _ _ => 1) (fun _ _ _ _ => 1) 0 0 1 1 :=
  ⟨(conv_variants_equivalent 1 1 2 2 1 1 2 2 2 2 (fun _ _ _ _ => 1) (some fun _ => 1)
      (fun _ _ _ _ => 1) (fun _ _ _ _ => 1)).1 0 0 1 1 (by decide) (by decide),
   (conv_variants_equivalent 1 1 2 2 1 1 2 2 2 2 (fun _ _ _ _ => 1) (some fun _ => 1)
      (fun _ _ _ _ => 1) (fun _ _ _ _ => 1)).2.1 0 0 1 1 (by decide) (by decide)⟩

/-! ### 2-D arrays, numpy-style errors, and `FullyConnectedLayer` -/

/-- Error kinds arising in the embedded Python/numpy semantics.
`shapeMismatch` is the error kind named by the specification; it is included
so the spec's claim can be stated, but no code path in the source produces
it. -/
inductive PyError where
  | valueError
  | attributeError
  | typeError
  | shapeMismatch
deriving DecidableEq

/-- A 2-D numpy array: a shape together with an entry function. -/
structure NpMat where
  rows : ℕ
  cols : ℕ
  entry : ℕ → ℕ → ℚ

/-- Embeds `np.dot` on 2-D arrays: numpy raises ValueError unless the inner
dimensions agree. -/
def npDot (a b : NpMat) : Except PyError NpMat :=
  if a.cols = b.rows then
    Except.ok ⟨a.rows, b.cols, fun i j => ∑ k ∈ Finset.range a.cols, a.entry i k * b.entry k j⟩
  else Except.error PyError.valueError

/-- Embeds numpy broadcast addition of a `(1, n)` row vector to an `(m, n)`
array (the only broadcast pattern `FullyConnectedLayer` uses for its bias). -/
def npAddRow (a b : NpMat) : Except PyError NpMat :=
  if b.rows = 1 ∧ a.cols = b.cols then
    Except.ok ⟨a.rows, a.cols, fun i j => a.entry i j + b.entry 0 j⟩
  else Except.error PyError.valueError

/-- Embeds `.T` on a 2-D array. -/
def npTranspose (a : NpMat) : NpMat := ⟨a.cols, a.rows, fun i j => a.entry j i⟩

/-- Embeds `np.sum(a, axis=0, keepdims=True)`. -/
def npSumAxis0 (a : NpMat) : NpMat :=
  ⟨1, a.cols, fun _ j => ∑ i ∈ Finset.range a.rows, a.entry i j⟩

/-- Embeds reading an attribute such as `self.input_` that is only assigned
by `forward`: before any forward call the attribute does not exist and Python
raises AttributeError. -/
def getAttr {α : Type} (a : Option α) : Except PyError α :=
  match a with
  | some v => Except.ok v
  | none => Except.error PyError.attributeError

/-- State of a `FullyConnectedLayer`: weights `(in, out)`, bias `(1, out)`,
the input cached by the last forward call (absent before the first call), and
the parameter gradients stored by backward. -/
structure FCState where
  weights : NpMat
  bias : NpMat
  input? : Option NpMat
  weightsGradient : Option NpMat
  biasGradient : Option NpMat

/-- Embeds `FullyConnectedLayer.forward`:
`self.output = np.dot(input_, self.weights) + self.bias`, caching the input. -/
def fcForward (st : FCState) (input : NpMat) : Except PyError (FCState × NpMat) := do
  let prod ← npDot input st.weights
  let output ← npAddRow prod st.bias
  Except.ok ({ st with input? := some input }, output)

/-- Embeds `FullyConnectedLayer.backward`, in source order:
`input_gradient = np.dot(output_gradient, self.weights.T)`, then the access
to `self.input_` (AttributeError if no forward happened), then
`self.weights_gradient = np.dot(self.input_.T, output_gradient)` and
`self.bias_gradient = np.sum(output_gradient, axis=0, keepdims=True)`. -/
def fcBackward (st : FCState) (og : NpMat) : Except PyError (FCState × NpMat) := do
  let inputGradient ← npDot og (npTranspose st.weights)
  let input ← getAttr st.input?
  let weightsGradient ← npDot (npTranspose input) og
  let biasGradient := npSumAxis0 og
  Except.ok
    ({ st with
        weightsGradient := some weightsGradient
        biasGradient := some biasGradient },
      inputGradient)

/-- C5 (counterexample): on a freshly constructed 1→1 `FullyConnectedLayer`,
calling backward without a preceding forward fails with an AttributeError
(the read of the never-assigned `self.input_`), not with the ShapeMismatch
error the claim requires. -/
theorem fc_backward_no_forward_not_shape_mismatch :
    fcBackward ⟨⟨1, 1, fun _ _ => 0⟩, ⟨1, 1, fun _ _ => 0⟩, none, none, none⟩
        ⟨1, 1, fun _ _ => 0⟩ = Except.error PyError.attributeError ∧
    (Except.error PyError.attributeError : Except PyError (FCState × NpMat)) ≠
      Except.error PyError.shapeMismatch := by
  constructor
  · rfl
  · simp

/-- C5 (amended): `FullyConnectedLayer.backward` never raises a ShapeMismatch
error.  Without a preceding forward it fails with an AttributeError when the
output gradient's column count matches `weights.cols` (so that the first
`np.dot` succeeds), and with a ValueError from `np.dot` when it does not; with
a cached input whose row (batch) count differs from the output gradient's it
fails with a ValueError. -/
theorem fc_backward_error_behavior (st : FCState) (og : NpMat) :
    (st.input? = none → og.cols = st.weights.cols →
      fcBackward st og = Except.error PyError.attributeError) ∧
    (og.cols ≠ st.weights.cols →
      fcBackward st og = Except.error PyError.valueError) ∧
    (∀ input, st.input? = some input → og.cols = st.weights.cols →
      input.rows ≠ og.rows →
      fcBackward st og = Except.error PyError.valueError) := by
  refine ⟨fun hc hcols => ?_, fun hcols => ?_, fun input hc hcols hrows => ?_⟩
  · simp [fcBackward, npDot, npTranspose, getAttr, hcols, hc, Bind.bind, Except.bind]
  · simp [fcBackward, npDot, npTranspose, getAttr, hcols, Bind.bind, Except.bind]
  · simp [fcBackward, npDot, npTranspose, getAttr, hcols, hc, hrows, Bind.bind, Except.bind,
      Ne.symm hrows]

/-- Witness for C5's amended theorem: a concrete layer (weights 1×2) and a
1×1 output gradient with mismatched columns yield a ValueError. -/
theorem fc_backward_error_behavior_witness :
    fcBackward ⟨⟨1, 2, fun _ _ => 0⟩, ⟨1, 2, fun _ _ => 0⟩, none, none, none⟩
        ⟨1, 1, fun _ _ => 0⟩ = Except.error PyError.valueError :=
  (fc_backward_error_behavior _ _).2.1 (by decide)

/-- C7: for a `FullyConnectedLayer` with input `(batch, in)`, weights
`(in, out)` and bias `(1, out)`: forward returns `input · weights + bias`
with the bias row broadcast over the batch; backward on an output gradient of
shape `(batch, out)` returns `output_gradient · weightsᵀ`, stores
`weight_gradient = inputᵀ · output_gradient`, and stores `bias_gradient` as
the column-sum of the output gradient over the batch axis with shape
`(1, out)`. -/
theorem fc_forward_backward_formulas (batch inF outF : ℕ)
    (weights bias input og : NpMat)
    (hWr : weights.rows = inF) (hWc : weights.cols = outF)
    (hbr : bias.rows = 1) (hbc : bias.cols = outF)
    (hir : input.rows = batch) (hic : input.cols = inF)
    (hogr : og.rows = batch) (hogc : og.cols = outF) :
    (fcForward ⟨weights, bias, none, none, none⟩ input =
      Except.ok ({ weights := weights, bias := bias, input? := some input,
                   weightsGradient := none, biasGradient := none },
        ⟨batch, outF, fun i j =>
          (∑ k ∈ Finset.range inF, input.entry i k * weights.entry k j) + bias.entry 0 j⟩)) ∧
    (fcBackward ⟨weights, bias, some input, none, none⟩ og =
      Except.ok ({ weights := weights, bias := bias, input? := some input,
                   weightsGradient := some ⟨inF, outF, fun i j =>
                     ∑ k ∈ Finset.range batch, input.entry k i * og.entry k j⟩,
                   biasGradient := some ⟨1, outF, fun _ j =>
                     ∑ i ∈ Finset.range batch, og.entry i j⟩ },
        ⟨batch, inF, fun i j =>
          ∑ k ∈ Finset.range outF, og.entry i k * weights.entry j k⟩)) := by
  subst hic hWc hir
  constructor
  · simp [fcForward, npDot, npAddRow, hbr, hbc, hWr, Bind.bind, Except.bind]
  · simp [fcBackward, npDot, npTranspose, getAttr, npSumAxis0, hogc, hogr, hWr,
      Bind.bind, Except.bind]

/-- Witness for C7: the formulas instantiated on a concrete 1×1 layer. -/
theorem fc_forward_backward_formulas_witness :
    fcForward ⟨⟨1, 1, fun _ _ => 2⟩, ⟨1, 1, fun _ _ => 3⟩, none, none, none⟩
        ⟨1, 1, fun _ _ => 5⟩ =
      Except.ok ({ weights := ⟨1, 1, fun _ _ => 2⟩, bias := ⟨1, 1, fun _ _ => 3⟩,
                   input? := some ⟨1, 1, fun _ _ => 5⟩,
                   weightsGradient := none, biasGradient := none },
        ⟨1, 1, fun i j =>
          (∑ k ∈ Finset.range 1,
            (⟨1, 1, fun _ _ => 5⟩ : NpMat).entry i k *
              (⟨1, 1, fun _ _ => 2⟩ : NpMat).entry k j) +
            (⟨1, 1, fun _ _ => 3⟩ : NpMat).entry 0 j⟩) :=
  (fc_forward_backward_formulas 1 1 1 ⟨1, 1, fun _ _ => 2⟩ ⟨1, 1, fun _ _ => 3⟩
    ⟨1, 1, fun _ _ => 5⟩ ⟨1, 1, fun _ _ => 7⟩ rfl rfl rfl rfl rfl rfl rfl rfl).1

/-! ### MaxPool2d

`MaxPool2d._get_padded_input` fills the halo with `-np.inf` by default.  The
extended value line `ℚ ∪ {-∞}` is modelled by `Option ℚ` with `none` playing
`-∞`; `negInfMax` is the max of that line, so `np.max` over a window becomes a
fold of `negInfMax`. -/

/-- Maximum on the value line `ℚ ∪ {-∞}` (with `none` as `-∞`). -/
def negInfMax (a b : Option ℚ) : Option ℚ :=
  match a, b with
  | none, bb => bb
  | some v, none => some v
  | some v, some u => some (max v u)

/-- Embeds `np.max` over a list of values (the flattened pooling window). -/
def listMax (l : List (Option ℚ)) : Option ℚ := l.foldl negInfMax none

/-- Embeds `MaxPool2d._get_padded_input`: inside the halo the input value,
in the halo `-∞` when `use_neg_inf_for_padding` is set and `0` otherwise. -/
def mpPaddedInput (negInf : Bool) (p H W : ℕ) (x : T4) :
    ℕ → ℕ → ℕ → ℕ → Option ℚ :=
  fun b c y z =>
    if p ≤ y ∧ y < p + H ∧ p ≤ z ∧ z < p + W then some (x b c (y - p) (z - p))
    else if negInf then none else some 0

/-- Embeds `max_value = np.max(window)` for the pooling window whose top-left
corner is `(h*stride, w*stride)`. -/
def mpWindowMax (K s : ℕ) (pin : ℕ → ℕ → ℕ → ℕ → Option ℚ) (b c h w : ℕ) :
    Option ℚ :=
  listMax ((List.range K).flatMap fun i =>
    (List.range K).map fun j => pin b c (h * s + i) (w * s + j))

/-- Embeds one iteration of the four-level loop nest in `MaxPool2d.backward`:
`input_gradient[b, c, h*s:h*s+K, w*s:w*s+K] += (window == max_value) * og[b, c, h, w]`. -/
def mpBackwardStep (K s : ℕ) (pin : ℕ → ℕ → ℕ → ℕ → Option ℚ) (og : T4)
    (g : T4) : ℕ × ℕ × ℕ × ℕ → T4 :=
  fun q =>
    match q with
    | (b, c, h, w) =>
      fun b' c' y z =>
        if b' = b ∧ c' = c ∧ h * s ≤ y ∧ y < h * s + K ∧ w * s ≤ z ∧ z < w * s + K then
          g b' c' y z +
            (if pin b c y z = mpWindowMax K s pin b c h w then og b c h w else 0)
        else g b' c' y z

/-- The iteration order of the loop nest in `MaxPool2d.backward`
(batch, channel, output row, output column). -/
def mpWindows (B C oh ow : ℕ) : List (ℕ × ℕ × ℕ × ℕ) :=
  (List.range B).flatMap fun b =>
    (List.range C).flatMap fun c =>
      (List.range oh).flatMap fun h =>
        (List.range ow).map fun w => (b, c, h, w)

/-- Embeds `MaxPool2d.backward`: the accumulation loop folded over all
windows starting from the zero gradient, cropped back by the padding. -/
def mpBackward (K s p : ℕ) (negInf : Bool) (B C H W : ℕ) (x og : T4) : T4 :=
  fun b c y z =>
    (mpWindows B C (outDim H K s p) (outDim W K s p)).foldl
      (mpBackwardStep K s (mpPaddedInput negInf p H W x) og) (fun _ _ _ _ => 0)
      b c (y + p) (z + p)

/-- What one loop iteration adds at a fixed position, in nested-if form. -/
def mpContribution (K s : ℕ) (pin : ℕ → ℕ → ℕ → ℕ → Option ℚ) (og : T4)
    (b' c' y z : ℕ) : ℕ × ℕ × ℕ × ℕ → ℚ :=
  fun q =>
    match q with
    | (b, c, h, w) =>
      if b' = b then
        if c' = c then
          if h * s ≤ y ∧ y < h * s + K ∧ w * s ≤ z ∧ z < w * s + K then
            if pin b c y z = mpWindowMax K s pin b c h w then og b c h w else 0
          else 0
        else 0
      else 0

lemma mpStep_eq (K s : ℕ) (pin : ℕ → ℕ → ℕ → ℕ → Option ℚ) (og g : T4)
    (q : ℕ × ℕ × ℕ × ℕ) (b' c' y z : ℕ) :
    mpBackwardStep K s pin og g q b' c' y z =
      g b' c' y z + mpContribution K s pin og b' c' y z q := by
  rcases q with ⟨b, c, h, w⟩
  simp only [mpBackwardStep, mpContribution]
  by_cases h1 : b' = b
  · by_cases h2 : c' = c
    · by_cases h3 : h * s ≤ y ∧ y < h * s + K ∧ w * s ≤ z ∧ z < w * s + K
      · rw [if_pos ⟨h1, h2, h3.1, h3.2.1, h3.2.2.1, h3.2.2.2⟩, if_pos h1, if_pos h2,
          if_pos h3]
      · rw [if_neg (fun hq => h3 ⟨hq.2.2.1, hq.2.2.2.1, hq.2.2.2.2.1, hq.2.2.2.2.2⟩),
          if_pos h1, if_pos h2, if_neg h3, add_zero]
    · rw [if_neg (fun hq => h2 hq.2.1), if_pos h1, if_neg h2, add_zero]
  · rw [if_neg (fun hq => h1 hq.1), if_neg h1, add_zero]

lemma mpFold_closed_form (K s : ℕ) (pin : ℕ → ℕ → ℕ → ℕ → Option ℚ) (og : T4)
    (l : List (ℕ × ℕ × ℕ × ℕ)) (g0 : T4) (b' c' y z : ℕ) :
    l.foldl (mpBackwardStep K s pin og) g0 b' c' y z =
      g0 b' c' y z + (l.map (mpContribution K s pin og b' c' y z)).sum := by
  induction l generalizing g0 with
  | nil => simp
  | cons q qs ih =>
    rw [List.foldl_cons, ih, List.map_cons, List.sum_cons, mpStep_eq]
    ring

lemma sum_map_range (f : ℕ → ℚ) (n : ℕ) :
    ((List.range n).map f).sum = ∑ i ∈ Finset.range n, f i := by
  induction n with
  | zero => simp
  | succ m ih =>
    rw [List.range_succ, List.map_append, List.sum_append, Finset.sum_range_succ, ih]
    simp

lemma sum_map_flatMap {α β : Type} (l : List α) (f : α → List β) (g : β → ℚ) :
    ((l.flatMap f).map g).sum = (l.map fun a => ((f a).map g).sum).sum := by
  induction l with
  | nil => simp
  | cons a l ih => simp [ih]

lemma mpWindows_sum (B C oh ow : ℕ) (g : ℕ × ℕ × ℕ × ℕ → ℚ) :
    ((mpWindows B C oh ow).map g).sum =
      ∑ b ∈ Finset.range B, ∑ c ∈ Finset.range C,
        ∑ h ∈ Finset.range oh, ∑ w ∈ Finset.range ow, g (b, c, h, w) := by
  unfold mpWindows
  rw [sum_map_flatMap, sum_map_range]
  refine Finset.sum_congr rfl fun b _ => ?_
  rw [sum_map_flatMap, sum_map_range]
  refine Finset.sum_congr rfl fun c _ => ?_
  rw [sum_map_flatMap, sum_map_range]
  refine Finset.sum_congr rfl fun h _ => ?_
  rw [List.map_map, sum_map_range]
  rfl

lemma sum_collapse (B b : ℕ) (hb : b < B) (f : ℕ → ℚ) :
    ∑ i ∈ Finset.range B, (if b = i then f i else 0) = f b := by
  rw [Finset.sum_ite_eq, if_pos (Finset.mem_range.mpr hb)]

lemma sum3_ite_pull (c : Prop) [Decidable c] (s t u : Finset ℕ) (f : ℕ → ℕ → ℕ → ℚ) :
    (∑ a ∈ s, ∑ d ∈ t, ∑ e ∈ u, if c then f a d e else 0) =
      if c then ∑ a ∈ s, ∑ d ∈ t, ∑ e ∈ u, f a d e else 0 := by
  split <;> simp

lemma sum2_ite_pull (c : Prop) [Decidable c] (t u : Finset ℕ) (f : ℕ → ℕ → ℚ) :
    (∑ d ∈ t, ∑ e ∈ u, if c then f d e else 0) =
      if c then ∑ d ∈ t, ∑ e ∈ u, f d e else 0 := by
  split <;> simp

/-- C4: in `MaxPool2d.backward`, each pooling window routes its upstream
gradient only to the positions of the padded input that attain the window
maximum: processing window `(h, w)` of plane `(b, c)` adds exactly the full
upstream gradient value at every position whose padded value equals the
window maximum (so a unique maximum receives the entire gradient, and tied
maxima each receive the full, undivided value — demonstrated concretely by
the 2×2 window `[[3, 3], [0, 0]]`, where both tied entries receive the whole
upstream value 5), and adds nothing anywhere else. -/
theorem maxpool_backward_routes_to_maxima :
    (∀ (K s : ℕ) (pin : ℕ → ℕ → ℕ → ℕ → Option ℚ) (og g : T4) (b c h w b' c' y z : ℕ),
      mpBackwardStep K s pin og g (b, c, h, w) b' c' y z =
        g b' c' y z +
          (if b' = b ∧ c' = c ∧ h * s ≤ y ∧ y < h * s + K ∧ w * s ≤ z ∧ z < w * s + K ∧
              pin b c y z = mpWindowMax K s pin b c h w
           then og b c h w else 0)) ∧
    (mpBackward 2 2 0 true 1 1 2 2 (fun _ _ y _ => if y = 0 then 3 else 0)
        (fun _ _ _ _ => 5) 0 0 0 0 = 5 ∧
     mpBackward 2 2 0 true 1 1 2 2 (fun _ _ y _ => if y = 0 then 3 else 0)
        (fun _ _ _ _ => 5) 0 0 0 1 = 5 ∧
     mpBackward 2 2 0 true 1 1 2 2 (fun _ _ y _ => if y = 0 then 3 else 0)
        (fun _ _ _ _ => 5) 0 0 1 0 = 0) := by
  constructor
  · intro K s pin og g b c h w b' c' y z
    rw [mpStep_eq]
    simp only [mpContribution]
    by_cases h1 : b' = b
    · by_cases h2 : c' = c
      · by_cases h3 : h * s ≤ y ∧ y < h * s + K ∧ w * s ≤ z ∧ z < w * s + K
        · by_cases h4 : pin b c y z = mpWindowMax K s pin b c h w
          · rw [if_pos h1, if_pos h2, if_pos h3, if_pos h4,
              if_pos ⟨h1, h2, h3.1, h3.2.1, h3.2.2.1, h3.2.2.2, h4⟩]
          · rw [if_pos h1, if_pos h2, if_pos h3, if_neg h4,
              if_neg (fun hq => h4 hq.2.2.2.2.2.2)]
        · rw [if_pos h1, if_pos h2, if_neg h3,
            if_neg (fun hq => h3 ⟨hq.2.2.1, hq.2.2.2.1, hq.2.2.2.2.1, hq.2.2.2.2.2.1⟩)]
      · rw [if_pos h1, if_neg h2, if_neg (fun hq => h2 hq.2.1)]
    · rw [if_neg h1, if_neg (fun hq => h1 hq.1)]
  · refine ⟨?_, ?_, ?_⟩ <;>
      norm_num [mpBackward, mpWindows, outDim, List.range_succ, mpBackwardStep,
        mpPaddedInput, mpWindowMax, listMax, negInfMax]

/-- C9: in `MaxPool2d.backward` the contributions of different (possibly
overlapping) pooling windows accumulate additively: the returned gradient at
input position `(y, z)` of plane `(b, c)` is the sum, over all windows that
contain the corresponding padded position and in which that position attains
the window maximum, of those windows' full upstream gradient values. -/
theorem maxpool_backward_accumulates (K s p : ℕ) (negInf : Bool) (B C H W : ℕ)
    (x og : T4) (b c y z : ℕ) (hb : b < B) (hc : c < C) :
    mpBackward K s p negInf B C H W x og b c y z =
      ∑ h ∈ Finset.range (outDim H K s p), ∑ w ∈ Finset.range (outDim W K s p),
        if h * s ≤ y + p ∧ y + p < h * s + K ∧ w * s ≤ z + p ∧ z + p < w * s + K ∧
            mpPaddedInput negInf p H W x b c (y + p) (z + p) =
              mpWindowMax K s (mpPaddedInput negInf p H W x) b c h w
        then og b c h w else 0 := by
  unfold mpBackward
  rw [mpFold_closed_form, mpWindows_sum]
  simp only [mpContribution, zero_add]
  rw [Finset.sum_congr rfl fun b'' _ => sum3_ite_pull (b = b'') _ _ _ _]
  rw [sum_collapse B b hb]
  rw [Finset.sum_congr rfl fun c'' _ => sum2_ite_pull (c = c'') _ _ _]
  rw [sum_collapse C c hc]
  refine Finset.sum_congr rfl fun h _ => Finset.sum_congr rfl fun w _ => ?_
  by_cases h1 : h * s ≤ y + p ∧ y + p < h * s + K ∧ w * s ≤ z + p ∧ z + p < w * s + K
  · by_cases h2 : mpPaddedInput negInf p H W x b c (y + p) (z + p) =
        mpWindowMax K s (mpPaddedInput negInf p H W x) b c h w
    · rw [if_pos h1, if_pos h2, if_pos ⟨h1.1, h1.2.1, h1.2.2.1, h1.2.2.2, h2⟩]
    · rw [if_pos h1, if_neg h2, if_neg (fun hq => h2 hq.2.2.2.2)]
  · rw [if_neg h1, if_neg (fun hq => h1 ⟨hq.1, hq.2.1, hq.2.2.1, hq.2.2.2.1⟩)]

/-- Witness for C9: the accumulation formula applied to a concrete
configuration with overlapping windows (kernel 2, stride 1 on a 1×2 plane). -/
theorem maxpool_backward_accumulates_witness :
    mpBackward 2 1 0 true 1 1 2 2 (fun _ _ y z => if y = 0 ∧ z = 0 then 4 else 1)
        (fun _ _ _ _ => 7) 0 0 0 0 =
      ∑ h ∈ Finset.range (outDim 2 2 1 0), ∑ w ∈ Finset.range (outDim 2 2 1 0),
        if h * 1 ≤ 0 + 0 ∧ 0 + 0 < h * 1 + 2 ∧ w * 1 ≤ 0 + 0 ∧ 0 + 0 < w * 1 + 2 ∧
            mpPaddedInput true 0 2 2 (fun _ _ y z => if y = 0 ∧ z = 0 then 4 else 1)
              0 0 (0 + 0) (0 + 0) =
              mpWindowMax 2 1 (mpPaddedInput true 0 2 2
                (fun _ _ y z => if y = 0 ∧ z = 0 then 4 else 1)) 0 0 h w
        then (7 : ℚ) else 0 :=
  maxpool_backward_accumulates 2 1 0 true 1 1 2 2
    (fun _ _ y z => if y = 0 ∧ z = 0 then 4 else 1) (fun _ _ _ _ => 7) 0 0 0 0
    (by decide) (by decide)

/-! ### BatchNormalization2d

Only the state that the claims touch is modelled (scale, shift, running
statistics, momentum, epsilon); the caches `self.mean`, `self.var` and
`self.norm_input` consumed by backward are not referenced by any claim. -/

/-- Per-channel state of a `BatchNormalization2d` layer. -/
structure BNState where
  gamma : ℕ → ℚ
  beta : ℕ → ℚ
  running_mean : ℕ → ℚ
  running_var : ℕ → ℚ
  momentum : ℚ
  eps : ℚ

/-- Embeds `input_.mean(axis=(0, 2, 3), keepdims=True)` for channel `c`. -/
def bnBatchMean (B H W : ℕ) (x : T4) (c : ℕ) : ℚ :=
  (∑ b ∈ Finset.range B, ∑ h ∈ Finset.range H, ∑ w ∈ Finset.range W, x b c h w) /
    ((B * H * W : ℕ) : ℚ)

/-- Embeds `input_.var(axis=(0, 2, 3), keepdims=True, ddof=0)`: the biased
population variance of channel `c` over the batch and spatial axes. -/
def bnBatchVar (B H W : ℕ) (x : T4) (c : ℕ) : ℚ :=
  (∑ b ∈ Finset.range B, ∑ h ∈ Finset.range H, ∑ w ∈ Finset.range W,
    (x b c h w - bnBatchMean B H W x c) ^ 2) / ((B * H * W : ℕ) : ℚ)

/-- Embeds `update_running_mean_and_var`, with
`n = np.prod(self.input_.shape) / self.n_channels` computed exactly as in the
source: the float division of the full element count `B*C*H*W` by the channel
count. -/
def bnUpdateRunning (B C H W : ℕ) (st : BNState) (x : T4) : (ℕ → ℚ) × (ℕ → ℚ) :=
  (fun c => st.momentum * bnBatchMean B H W x c + (1 - st.momentum) * st.running_mean c,
   fun c =>
     st.momentum * bnBatchVar B H W x c * (((B * C * H * W : ℕ) : ℚ) / (C : ℚ)) /
         (((B * C * H * W : ℕ) : ℚ) / (C : ℚ) - 1)
       + (1 - st.momentum) * st.running_var c)

/-- Embeds `BatchNormalization2d.forward`, returning the output and the
updated state.  In training mode it normalizes with the batch statistics and
updates the running statistics; in evaluation mode it normalizes with the
running statistics and leaves the state untouched.  `sqrtQ` stands for the
numeric primitive `np.sqrt`. -/
def bnForward (sqrtQ : ℚ → ℚ) (training : Bool) (B C H W : ℕ) (st : BNState)
    (x : T4) : T4 × BNState :=
  if training then
    (fun b c h w =>
       st.gamma c * ((x b c h w - bnBatchMean B H W x c) /
         sqrtQ (bnBatchVar B H W x c + st.eps)) + st.beta c,
     { st with
        running_mean := (bnUpdateRunning B C H W st x).1
        running_var := (bnUpdateRunning B C H W st x).2 })
  else
    (fun b c h w =>
       st.gamma c * ((x b c h w - st.running_mean c) /
         sqrtQ (st.running_var c + st.eps)) + st.beta c,
     st)

/-- Embeds `BatchNormalization2d.__init__`: gamma is all ones, beta all
zeros, the running mean all zeros, the running variance all ones. -/
def bnInit (momentum eps : ℚ) : BNState :=
  { gamma := fun _ => 1
    beta := fun _ => 0
    running_mean := fun _ => 0
    running_var := fun _ => 1
    momentum := momentum
    eps := eps }

/-- C3: one training-mode forward call updates the running statistics as
`running_mean ← momentum·batch_mean + (1−momentum)·prior` and
`running_var ← momentum·(batch_var·n/(n−1)) + (1−momentum)·prior`, where
`batch_var` is the biased population variance over batch and spatial axes and
`n = batch_size·height·width`; in evaluation mode forward normalizes with the
running statistics and leaves the whole state unchanged. -/
theorem bn_running_statistics (sqrtQ : ℚ → ℚ) (B C H W : ℕ) (st : BNState)
    (x : T4) (hC : 0 < C) :
    ((bnForward sqrtQ true B C H W st x).2.running_mean = fun c =>
        st.momentum * bnBatchMean B H W x c + (1 - st.momentum) * st.running_mean c) ∧
    ((bnForward sqrtQ true B C H W st x).2.running_var = fun c =>
        st.momentum * (bnBatchVar B H W x c * ((B * H * W : ℕ) : ℚ) /
            (((B * H * W : ℕ) : ℚ) - 1)) + (1 - st.momentum) * st.running_var c) ∧
    ((bnForward sqrtQ false B C H W st x).2 = st) ∧
    ((bnForward sqrtQ false B C H W st x).1 = fun b c h w =>
        st.gamma c * ((x b c h w - st.running_mean c) /
          sqrtQ (st.running_var c + st.eps)) + st.beta c) := by
  have hC' : (C : ℚ) ≠ 0 := Nat.cast_ne_zero.mpr hC.ne'
  have hn : ((B * C * H * W : ℕ) : ℚ) / (C : ℚ) = ((B * H * W : ℕ) : ℚ) := by
    push_cast
    field_simp
    ring
  refine ⟨rfl, ?_, rfl, rfl⟩
  funext c
  simp only [bnForward, bnUpdateRunning, if_true]
  rw [hn]
  ring

/-- Witness for C3: the running-mean update formula on a concrete one-channel
configuration. -/
theorem bn_running_statistics_witness :
    (bnForward (fun q => q) true 1 1 1 2 (bnInit (1 / 10) (1 / 100000))
        (fun _ _ _ _ => 3)).2.running_mean = fun c =>
      (bnInit (1 / 10) (1 / 100000)).momentum * bnBatchMean 1 1 2 (fun _ _ _ _ => 3) c +
        (1 - (bnInit (1 / 10) (1 / 100000)).momentum) *
          (bnInit (1 / 10) (1 / 100000)).running_mean c :=
  (bn_running_statistics (fun q => q) 1 1 1 2 (bnInit (1 / 10) (1 / 100000))
    (fun _ _ _ _ => 3) (by decide)).1

/-- C10: a freshly constructed `BatchNormalization2d` has gamma all ones,
beta all zeros, running mean all zeros and running variance all ones, and
evaluation-mode forward on the fresh layer is defined for every input and
returns `input / sqrt(1 + eps)` elementwise (for the numeric square-root
primitive `sqrtQ`). -/
theorem bn_fresh_eval_forward (sqrtQ : ℚ → ℚ) (momentum eps : ℚ) (B C H W : ℕ)
    (x : T4) :
    (bnInit momentum eps).gamma = (fun _ => 1) ∧
    (bnInit momentum eps).beta = (fun _ => 0) ∧
    (bnInit momentum eps).running_mean = (fun _ => 0) ∧
    (bnInit momentum eps).running_var = (fun _ => 1) ∧
    (bnForward sqrtQ false B C H W (bnInit momentum eps) x).1 =
      fun b c h w => x b c h w / sqrtQ (1 + eps) := by
  refine ⟨rfl, rfl, rfl, rfl, ?_⟩
  funext b c h w
  simp [bnForward, bnInit]

/-! ### softmax and CrossEntropyLossWithSoftMax -/

/-- Embeds `np.max(x, axis=1, keepdims=True)` for one row: the maximum of
the row entries (numpy errors on an empty row; all uses here have `n ≥ 1`). -/
def rowMax (n : ℕ) (row : ℕ → ℚ) : ℚ :=
  (List.range n).foldl (fun a i => max a (row i)) (row 0)

/-- Embeds the module-level `softmax`: exponentials of the max-shifted row,
normalized by their row sum.  `expQ` stands for the numeric primitive
`np.exp`. -/
def softmaxEntry (expQ : ℚ → ℚ) (n : ℕ) (row : ℕ → ℚ) (i : ℕ) : ℚ :=
  expQ (row i - rowMax n row) / ∑ j ∈ Finset.range n, expQ (row j - rowMax n row)

/-- Embeds `self.pred = np.clip(softmax(activation), 1e-8, None)` in
`CrossEntropyLossWithSoftMax.forward`: an elementwise lower clip at `1e-8`. -/
def cewsPred (expQ : ℚ → ℚ) (n : ℕ) (act : ℕ → ℕ → ℚ) : ℕ → ℕ → ℚ :=
  fun b i => max (softmaxEntry expQ n (act b) i) (1 / 100000000)

/-- Embeds `CrossEntropyLossWithSoftMax.backward`:
`(self.pred - self.target) / batch_size` where `self.pred` is the clipped
softmax cached by the paired forward call and `batch_size` the leading
dimension `B`. -/
def cewsBackward (expQ : ℚ → ℚ) (B n : ℕ) (act target : ℕ → ℕ → ℚ) : ℕ → ℕ → ℚ :=
  fun b i => (cewsPred expQ n act b i - target b i) / (B : ℚ)

/-- The formula asserted by the claim, word for word: exactly
`(softmax(activation) - target) / batch_size`, with no clipping. -/
def cewsBackwardClaimed (expQ : ℚ → ℚ) (B n : ℕ) (act target : ℕ → ℕ → ℚ) :
    ℕ → ℕ → ℚ :=
  fun b i => (softmaxEntry expQ n (act b) i - target b i) / (B : ℚ)

/-- C6 (counterexample): with logits `[0, 21]` the first softmax probability
is below the `1e-8` clip floor (the exponential primitive takes the value
`exp(-21) ≈ 7.6e-10`, modelled here by a function with exactly that value at
`-21` and `1` at `0`), so backward returns the clipped value
`(1e-8 - target)/B`, which differs from the claimed
`(softmax(activation) - target)/B`. -/
theorem cews_backward_clips_below_floor :
    cewsBackward (fun q => if q = 0 then 1 else 76 / 100000000000) 1 2
        (fun _ i => if i = 1 then 21 else 0) (fun _ _ => 0) 0 0 ≠
      cewsBackwardClaimed (fun q => if q = 0 then 1 else 76 / 100000000000) 1 2
        (fun _ i => if i = 1 then 21 else 0) (fun _ _ => 0) 0 0 := by
  norm_num [cewsBackward, cewsBackwardClaimed, cewsPred, softmaxEntry, rowMax,
    List.range_succ, Finset.sum_range_succ]

/-- C6 (amended): backward returns exactly
`(clip(softmax(activation), 1e-8, None) - target) / batch_size`; whenever the
softmax entry is at least `1e-8` (no underflow of the clip floor) this equals
the claimed `(softmax(activation) - target) / batch_size`. -/
theorem cews_backward_formula (expQ : ℚ → ℚ) (B n : ℕ) (act target : ℕ → ℕ → ℚ)
    (b i : ℕ) :
    (cewsBackward expQ B n act target b i =
      (max (softmaxEntry expQ n (act b) i) (1 / 100000000) - target b i) / (B : ℚ)) ∧
    (1 / 100000000 ≤ softmaxEntry expQ n (act b) i →
      cewsBackward expQ B n act target b i = cewsBackwardClaimed expQ B n act target b i) := by
  constructor
  · rfl
  · intro hge
    unfold cewsBackward cewsBackwardClaimed cewsPred
    rw [max_eq_left hge]

/-- Witness for C6's amended theorem: with a one-entry row the softmax value
is 1, above the clip floor, and backward equals the unclipped formula. -/
theorem cews_backward_formula_witness :
    cewsBackward (fun _ => 1) 1 1 (fun _ _ => 0) (fun _ _ => 0) 0 0 =
      cewsBackwardClaimed (fun _ => 1) 1 1 (fun _ _ => 0) (fun _ _ => 0) 0 0 :=
  (cews_backward_formula (fun _ => 1) 1 1 (fun _ _ => 0) (fun _ _ => 0) 0 0).2
    (by norm_num [softmaxEntry, rowMax, Finset.sum_range_one])

/-! ### AdamOptimizer -/

/-- A Python dict from parameter-identity strings to moment values.  One
representative tensor entry is tracked per parameter: `step` fails before any
elementwise arithmetic on the moments is reached, so the entry values never
matter to the claims. -/
abbrev MomentDict : Type := List (String × ℚ)

/-- Dictionary lookup `d[k]` (0 as the never-used default). -/
def dictGet (d : MomentDict) (k : String) : ℚ :=
  ((d.find? fun e => e.1 == k).map Prod.snd).getD 0

/-- Dictionary assignment `d[k] = v`. -/
def dictSet (d : MomentDict) (k : String) (v : ℚ) : MomentDict :=
  (k, v) :: d.filter fun e => !(e.1 == k)

/-- Embeds `AdamOptimizer.update`: exponential-decay updates of the first-
and second-moment dictionaries for one parameter id. -/
def adamUpdate (beta1 beta2 : ℚ) (m v : MomentDict) (gradient : ℚ)
    (cache_id : String) : MomentDict × MomentDict :=
  (dictSet m cache_id (beta1 * dictGet m cache_id + (1 - beta1) * gradient),
   dictSet v cache_id (beta2 * dictGet v cache_id + (1 - beta2) * gradient ^ 2))

/-- Embeds the Python expression `self.m * (1 - self.beta1 ** self.t)` in
`AdamOptimizer.step`: `self.m` is the whole moment dictionary (not the entry
`self.m[cache_id]`), and multiplying a Python dict by a float raises
TypeError. -/
def dictMulFloat (_d : MomentDict) (_c : ℚ) : Except PyError ℚ :=
  Except.error PyError.typeError

/-- Optimizer state of `AdamOptimizer`. -/
structure AdamState where
  learning_rate : ℚ
  beta1 : ℚ
  beta2 : ℚ
  epsilon : ℚ
  m : MomentDict
  v : MomentDict
  t : ℕ

/-- Embeds the per-parameter body of the loop in `AdamOptimizer.step`, in
source order: `self.update(gradient, cache_id)`, then
`m_corrected = self.m * (1 - self.beta1 ** self.t)` (TypeError: dict times
float), then the analogous `v_corrected`, then the in-place parameter update.
`p` is the `(cache_id, parameter, gradient)` triple and `sqrtQ` stands for
`np.sqrt`. -/
def adamStepParam (sqrtQ : ℚ → ℚ) (st : AdamState) (p : String × ℚ × ℚ) :
    Except PyError (AdamState × ℚ) := do
  let mv := adamUpdate st.beta1 st.beta2 st.m st.v p.2.2 p.1
  let st1 := { st with m := mv.1, v := mv.2 }
  let m_corrected ← dictMulFloat st1.m (1 - st1.beta1 ^ st1.t)
  let v_corrected ← dictMulFloat st1.v (1 - st1.beta2 ^ st1.t)
  Except.ok (st1, p.2.1 - st1.learning_rate * m_corrected / (sqrtQ v_corrected + st1.epsilon))

/-- Embeds `AdamOptimizer.step`: increment the global step counter `t`, then
run the per-parameter body over the `(cache_id, parameter, gradient)` triples
of the tracked layers, collecting the updated parameter values. -/
def adamStep (sqrtQ : ℚ → ℚ) (st : AdamState) (params : List (String × ℚ × ℚ)) :
    Except PyError (AdamState × List ℚ) :=
  params.foldlM (fun acc p => do
      let r ← adamStepParam sqrtQ acc.1 p
      Except.ok (r.1, acc.2 ++ [r.2]))
    ({ st with t := st.t + 1 }, ([] : List ℚ))

/-- C2 (the code evaluated at the claim's scenario): `AdamOptimizer.step`
with at least one tracked parameter always raises TypeError, because
`m_corrected = self.m * (1 - self.beta1 ** self.t)` multiplies the whole
moment dictionary by a float — and even read entrywise it would multiply by
`(1 - beta1^t)` where the claim (and standard Adam) divides.  No bias
correction and no parameter update is ever performed. -/
theorem adam_step_raises_type_error (sqrtQ : ℚ → ℚ) (st : AdamState)
    (q : String × ℚ × ℚ) (rest : List (String × ℚ × ℚ)) :
    adamStep sqrtQ st (q :: rest) = Except.error PyError.typeError := by
  simp [adamStep, adamStepParam, dictMulFloat, List.foldlM, Bind.bind, Except.bind]

/-! ### Sequential -/

/-- A neural-network module as `Sequential` consumes it: a forward and a
backward function on tensors of some type `α`.  The per-layer caching is
abstracted into the functions (a layer's backward is its gradient map after
the paired forward call). -/
structure SimpleModule (α : Type) where
  forward : α → α
  backward : α → α

/-- Embeds `Sequential.forward`: pipe the input left-to-right through the
modules. -/
def seqForward {α : Type} (ms : List (SimpleModule α)) (x : α) : α :=
  ms.foldl (fun a m => m.forward a) x

/-- Embeds `Sequential.backward`: pipe the output gradient through the
modules in `reversed` order. -/
def seqBackward {α : Type} (ms : List (SimpleModule α)) (g : α) : α :=
  ms.reverse.foldl (fun a m => m.backward a) g

/-- Left-to-right composition of a list of functions, as the spec describes
the piping: `composeLTR [f, g, h] = h ∘ g ∘ f`. -/
def composeLTR {α : Type} : List (α → α) → α → α
  | [] => id
  | f :: fs => composeLTR fs ∘ f

lemma foldl_apply_eq_composeLTR {α : Type} (fs : List (α → α)) (x : α) :
    fs.foldl (fun a f => f a) x = composeLTR fs x := by
  induction fs generalizing x with
  | nil => rfl
  | cons f fs ih =>
    rw [List.foldl_cons, ih]
    rfl

/-- C8: `Sequential.forward` equals the left-to-right composition of the
sub-modules' forward functions (each output piped to the next input), and
`Sequential.backward` equals the right-to-left composition of their backward
functions, i.e. the left-to-right composition of the reversed list. -/
theorem sequential_composition {α : Type} (ms : List (SimpleModule α)) (x g : α) :
    seqForward ms x = composeLTR (ms.map SimpleModule.forward) x ∧
    seqBackward ms g = composeLTR ((ms.map SimpleModule.backward).reverse) g := by
  constructor
  · rw [seqForward, ← foldl_apply_eq_composeLTR, List.foldl_map]
  · rw [seqBackward, ← foldl_apply_eq_composeLTR, ← List.map_reverse, List.foldl_map]

end NumpyNN
